import Mathlib

/-!
Verification of the priority-orders analytics projection layer of the
downloader-qbench-data dashboard client.

The embedding models the TypeScript source at code-point level:

* a JavaScript string is a `List Nat` of UTF-16 code units (`JStr`);
  JS truthiness of a string is non-emptiness;
* a JavaScript number that participates in finiteness checks or IEEE
  comparisons is a `JsNum` (a rational, an infinity, or NaN); plain
  count fields are `Int`, ids are `Nat`;
* `string | null` upstream fields are `Option JStr`; fields the code
  defends with `??` are `Option` as well;
* a settled promise is an `Except JStr` value; `Promise.all` over two
  already-settled outcomes is the join `promiseAll2`.
-/

/-- A JavaScript string as its list of UTF-16 code units. -/
abbrev JStr := List Nat

/-- JS truthiness for strings: the empty string is falsy. -/
def jsTruthy (s : JStr) : Bool := !s.isEmpty

/-- `a || b` where `a : string | null | undefined`: yields `b` when `a` is
nullish or the empty string. -/
def jsOr (a : Option JStr) (b : JStr) : JStr :=
  match a with
  | some s => if s.isEmpty then b else s
  | none => b

/-- `a || b` where `a` is a plain string. -/
def jsOrS (a : JStr) (b : JStr) : JStr :=
  if a.isEmpty then b else a

/-- The literal `"--"`. -/
def dashDash : JStr := [45, 45]

/-- The literal `"Unknown"`. -/
def unknownLit : JStr := [85, 110, 107, 110, 111, 119, 110]

/-- The literal `"Order "` (template head of `Order ${id}`). -/
def orderLit : JStr := [79, 114, 100, 101, 114, 32]

/-- The literal `"Sample "` (template head of `Sample ${id}`). -/
def sampleLit : JStr := [83, 97, 109, 112, 108, 101, 32]

/-- Decimal rendering of a natural number as code units, modelling JS
template interpolation of an id. -/
def natCodes (n : Nat) : JStr := (Nat.toDigits 10 n).map Char.toNat

/-- A JavaScript number: a finite rational, an infinity, or NaN. -/
inductive JsNum where
  | finite (q : Rat)
  | posInf
  | negInf
  | nan
deriving DecidableEq, Repr

/-- `Number.isFinite`. -/
def JsNum.isFinite : JsNum → Bool
  | .finite _ => true
  | _ => false

/-- IEEE `a > b`: false whenever either operand is NaN. -/
def jsGt : JsNum → JsNum → Bool
  | .nan, _ => false
  | _, .nan => false
  | .finite a, .finite b => decide (b < a)
  | .finite _, .posInf => false
  | .finite _, .negInf => true
  | .posInf, .posInf => false
  | .posInf, _ => true
  | .negInf, _ => false

/-- IEEE `a ≤ b`: false whenever either operand is NaN. -/
def jsLe : JsNum → JsNum → Bool
  | .nan, _ => false
  | _, .nan => false
  | .finite a, .finite b => decide (a ≤ b)
  | .finite _, .posInf => true
  | .finite _, .negInf => false
  | .posInf, .posInf => true
  | .posInf, _ => false
  | .negInf, _ => true

/-- A parsed `Date` (`parseISO` result); the claims never inspect the
parsed calendar value, so it carries the ISO source string. -/
structure JsDate where
  iso : JStr
deriving DecidableEq, Repr

/-- `parseISO` from date-fns, at the granularity the claims need. -/
def parseISO (s : JStr) : JsDate := ⟨s⟩

/-- A display label derived from a parsed instant (`format(date, _)` in
date-fns); opaque to every claim, so modelled as the tagged instant. -/
structure DateLabel where
  ofDate : JsDate
deriving DecidableEq, Repr

/-- `formatDateLabel` from utils/format.ts (fixed abbreviated format). -/
def formatDateLabel (d : JsDate) : DateLabel := ⟨d⟩

/-! ## Raw response shapes (api.ts interfaces) -/

/-- Nested test record of `top_orders[].incomplete_samples[].tests[]`. -/
structure RawTest where
  primary_test_id : Nat
  test_ids : List Nat
  label_abbr : Option JStr
  states : Option (List JStr)
deriving DecidableEq, Repr

/-- Nested record of `top_orders[].incomplete_samples[]`. -/
structure RawIncompleteSample where
  sample_id : Nat
  sample_custom_id : Option JStr
  sample_name : Option JStr
  matrix_type : Option JStr
  total_tests : Option Int
  incomplete_tests : Option Int
  tests : Option (List RawTest)
deriving DecidableEq, Repr

/-- A raw order record (`top_orders[]`; `warning_orders[]` is consumed by
the same mapper `mapOrders`, which reads these fields). -/
structure RawOrder where
  order_id : Nat
  custom_formatted_id : Option JStr
  customer_name : Option JStr
  state : Option JStr
  date_created : Option JStr
  open_hours : JsNum
  total_samples : Option Int
  incomplete_sample_count : Option Int
  incomplete_samples : Option (List RawIncompleteSample)
deriving DecidableEq, Repr

/-- A record of `ready_to_report_samples[]` as declared in
`OverdueOrdersResponse`: note that this declared shape carries no
`sample_custom_id` field. -/
structure RawReadySample where
  sample_id : Nat
  sample_name : Option JStr
  order_custom_id : Option JStr
  customer_name : Option JStr
  completed_date : Option JStr
  tests_ready_count : Int
  tests_total_count : Int
deriving DecidableEq, Repr

/-- A record of `timeline[]`. -/
structure RawTimelinePoint where
  period_start : JStr
  overdue_orders : Int
deriving DecidableEq, Repr

/-- A record of `heatmap[]` (a heatmap triple). -/
structure RawHeatmapEntry where
  customer_name : Option JStr
  period_start : JStr
  overdue_orders : Int
deriving DecidableEq, Repr

/-- A record of `state_breakdown[]`. -/
structure RawStateBreakdown where
  state : Option JStr
  count : Int
  ratio : Rat
deriving DecidableEq, Repr

/-- The `kpis` block of the overdue response. -/
structure RawKpis where
  total_overdue : Int
  average_open_hours : Option Rat
  max_open_hours : Option Rat
  percent_overdue_vs_active : Rat
  overdue_beyond_sla : Int
  overdue_within_sla : Int
deriving DecidableEq, Repr

/-- `OverdueOrdersResponse`. -/
structure OverdueOrdersResponse where
  interval : JStr
  minimum_days_overdue : Int
  warning_window_days : Int
  sla_hours : JsNum
  kpis : RawKpis
  top_orders : List RawOrder
  warning_orders : List RawOrder
  ready_to_report_samples : List RawReadySample
  timeline : List RawTimelinePoint
  heatmap : List RawHeatmapEntry
  state_breakdown : List RawStateBreakdown
deriving DecidableEq, Repr

/-- The `stats` block of `SlowReportedOrdersResponse`. -/
structure RawSlowStats where
  total_orders : Int
  average_open_hours : Option Rat
  percentile_95_open_hours : Option Rat
  threshold_hours : Option Rat
deriving DecidableEq, Repr

/-- A record of `SlowReportedOrdersResponse.items[]`. -/
structure RawSlowItem where
  order_id : Nat
  order_reference : JStr
  customer_name : Option JStr
  date_created : Option JStr
  date_reported : Option JStr
  samples_count : Option Int
  tests_count : Option Int
  open_time_hours : Option Rat
  open_time_label : JStr
  is_outlier : Bool
deriving DecidableEq, Repr

/-- `SlowReportedOrdersResponse`. -/
structure SlowReportedOrdersResponse where
  stats : RawSlowStats
  items : List RawSlowItem
deriving DecidableEq, Repr

/-! ## Label normalization (`toTitleCase` in api.ts)

The JS pipeline is: lowercase the whole string, split on the regex
`[\s_]+` (a run of whitespace or underscores), uppercase the first
character of each resulting word, rejoin with single spaces.  Case
mapping is modelled at code-unit level: the ASCII simple mappings plus
representative full-Unicode special mappings that are not single-unit
or do not round-trip — `"ß"` (U+00DF) uppercases to `"SS"` and `"İ"`
(U+0130) lowercases to `"i"` followed by U+0307 — so the model
exhibits the expanding, non-round-tripping behaviour of real JS
casing.  `simpleCased` names the code units on which the modelled
mapping is the simple single-unit one. -/

/-- The simple single-unit lowercase mapping (ASCII range). -/
def toLowerCode (c : Nat) : Nat := if 65 ≤ c ∧ c ≤ 90 then c + 32 else c

/-- The simple single-unit uppercase mapping (ASCII range). -/
def toUpperCode (c : Nat) : Nat := if 97 ≤ c ∧ c ≤ 122 then c - 32 else c

/-- Code units whose modelled case mappings are the simple single-unit
ones (everything except the special-cased U+00DF and U+0130). -/
def simpleCased (c : Nat) : Bool := decide (c ≠ 223 ∧ c ≠ 304)

/-- `String.prototype.toLowerCase` on one code unit, as a string:
U+0130 lowercases to `"i"` + U+0307; otherwise the simple mapping. -/
def lowerOne (c : Nat) : JStr :=
  if c = 304 then [105, 775] else [toLowerCode c]

/-- `str.charAt(i).toUpperCase()` on one code unit, as a string:
U+00DF uppercases to `"SS"`; otherwise the simple mapping. -/
def upperOne (c : Nat) : JStr :=
  if c = 223 then [83, 83] else [toUpperCode c]

/-- `String.prototype.toLowerCase` on a whole string: the concatenation
of the per-unit lowercase strings. -/
def toLowerStr : JStr → JStr
  | [] => []
  | c :: cs => lowerOne c ++ toLowerStr cs

/-- Membership in the `[\s_]` class: JS whitespace (ASCII and the
Unicode space code points matched by `\s`) plus underscore. -/
def isSepCode (c : Nat) : Bool :=
  c = 9 || c = 10 || c = 11 || c = 12 || c = 13 || c = 32 || c = 95 ||
  c = 160 || c = 5760 || (8192 ≤ c && c ≤ 8202) || c = 8232 ||
  c = 8233 || c = 8239 || c = 8287 || c = 12288 || c = 65279

/-- Prepend a character to the first word (`split` never returns an
empty list, but the empty case keeps the function total). -/
def splitCons (c : Nat) : List JStr → List JStr
  | [] => [[c]]
  | w :: ws => (c :: w) :: ws

/-- `str.split(/[\s_]+/)`: splits on maximal runs of separator code
units; a leading or trailing run contributes an empty word, interior
runs do not. -/
def splitSep : JStr → List JStr
  | [] => [[]]
  | [c] => if isSepCode c then [[], []] else [[c]]
  | c :: d :: cs =>
    if isSepCode c then
      if isSepCode d then splitSep (d :: cs) else [] :: splitSep (d :: cs)
    else
      splitCons c (splitSep (d :: cs))

/-- `word.charAt(0).toUpperCase() + word.slice(1)` (on the empty word,
both pieces are empty; on `"ß"` the first piece expands to `"SS"`). -/
def capCode : JStr → JStr
  | [] => []
  | c :: cs => upperOne c ++ cs

/-- `words.join(' ')`. -/
def joinSpace : List JStr → JStr
  | [] => []
  | [w] => w
  | w :: ws => w ++ 32 :: joinSpace ws

/-- The truthy branch of `toTitleCase`. -/
def titleCore (s : JStr) : JStr :=
  joinSpace ((splitSep (toLowerStr s)).map capCode)

/-- `toTitleCase(value)` from api.ts: falsy input (null, undefined, the
empty string) maps to the literal `"--"`. -/
def toTitleCase (value : Option JStr) : JStr :=
  match value with
  | none => dashDash
  | some s => if s.isEmpty then dashDash else titleCore s

/-! ## Derived view-model types (types.ts) -/

/-- An entry of `OverdueOrder.samples[].tests[]`. -/
structure OverdueTest where
  id : Nat
  testIds : List Nat
  label : JStr
  states : List JStr
deriving DecidableEq, Repr

/-- An entry of `OverdueOrder.samples[]`. -/
structure OverdueSample where
  id : Nat
  customId : JStr
  name : JStr
  matrixType : JStr
  totalTests : Int
  incompleteTests : Int
  tests : List OverdueTest
deriving DecidableEq, Repr

/-- `OverdueOrder` (also `WarningOrder`, which is the same shape). -/
structure OverdueOrder where
  id : Nat
  reference : JStr
  customer : JStr
  state : JStr
  createdAt : Option JsDate
  openHours : JsNum
  slaBreached : Bool
  totalSamples : Int
  incompleteSamples : Int
  samples : List OverdueSample
deriving DecidableEq, Repr

/-- `PriorityKpis`. -/
structure PriorityKpis where
  totalOverdue : Int
  overdueBeyondSla : Int
  overdueWithinSla : Int
  averageOpenHours : Option Rat
  maxOpenHours : Option Rat
  percentOverdueVsActive : Rat
deriving DecidableEq, Repr

/-- `ReadySample` as produced by `mapReadySamples` (including the
`customId` field the mapper emits). -/
structure ReadySample where
  id : Nat
  customId : JStr
  name : JStr
  orderReference : JStr
  customer : JStr
  completedAt : Option JsDate
  testsDone : Int
  testsTotal : Int
deriving DecidableEq, Repr

/-- `TimelinePoint`. -/
structure TimelinePoint where
  date : JsDate
  label : DateLabel
  overdueOrders : Int
deriving DecidableEq, Repr

/-- `HeatmapCustomer`; the JS object `data : Record<string, number>` is
an insertion-ordered association list with unique keys. -/
structure HeatmapCustomer where
  customerName : JStr
  data : List (JStr × Int)
  total : Int
deriving DecidableEq, Repr

/-- `HeatmapData`. -/
structure HeatmapData where
  periods : List JStr
  customers : List HeatmapCustomer
deriving DecidableEq, Repr

/-- `StateBreakdownItem`. -/
structure StateBreakdownItem where
  state : JStr
  count : Int
  ratio : Rat
deriving DecidableEq, Repr

/-- The `stats` part of `SlowReportedOrdersData`. -/
structure SlowStats where
  totalOrders : Int
  averageOpenHours : Option Rat
  percentile95OpenHours : Option Rat
  thresholdHours : Option Rat
deriving DecidableEq, Repr

/-- An entry of `SlowReportedOrdersData.orders[]`. -/
structure SlowOrder where
  id : Nat
  reference : JStr
  customer : JStr
  createdAt : Option JsDate
  reportedAt : Option JsDate
  samplesCount : Int
  testsCount : Int
  openTimeHours : Rat
  openTimeLabel : JStr
  isOutlier : Bool
deriving DecidableEq, Repr

/-- `SlowReportedOrdersData`. -/
structure SlowReportedOrdersData where
  stats : SlowStats
  orders : List SlowOrder
deriving DecidableEq, Repr

/-- `PriorityOrdersData`, the composite root. -/
structure PriorityOrdersData where
  kpis : PriorityKpis
  topOrders : List OverdueOrder
  warningOrders : List OverdueOrder
  readySamples : List ReadySample
  timeline : List TimelinePoint
  heatmap : HeatmapData
  stateBreakdown : List StateBreakdownItem
  slowReported : SlowReportedOrdersData
deriving DecidableEq, Repr

/-! ## Entity mappers and aggregate projectors (api.ts) -/

/-- The ternary `v ? parseISO(v) : null` applied to a nullable string
(`null`, `undefined`, and the empty string are falsy). -/
def parseMaybeDate (v : Option JStr) : Option JsDate :=
  match v with
  | some d => if d.isEmpty then none else some (parseISO d)
  | none => none

/-- `buildKpis`. -/
def buildKpis (response : OverdueOrdersResponse) : PriorityKpis :=
  { totalOverdue := response.kpis.total_overdue
    overdueBeyondSla := response.kpis.overdue_beyond_sla
    overdueWithinSla := response.kpis.overdue_within_sla
    averageOpenHours := response.kpis.average_open_hours
    maxOpenHours := response.kpis.max_open_hours
    percentOverdueVsActive := response.kpis.percent_overdue_vs_active }

/-- The per-test arrow inside `mapOrders`: lifecycle states are
title-cased, and the id set prefers a non-empty explicit `test_ids`
list, falling back to the single `primary_test_id`. -/
def mapTestItem (test : RawTest) : OverdueTest :=
  { id := test.primary_test_id
    testIds := if test.test_ids.isEmpty then [test.primary_test_id] else test.test_ids
    label := jsOr test.label_abbr dashDash
    states :=
      match test.states with
      | some ss => ss.map (fun state => toTitleCase (some state))
      | none => [] }

/-- The per-sample arrow inside `mapOrders`. -/
def mapSampleItem (sample : RawIncompleteSample) : OverdueSample :=
  { id := sample.sample_id
    customId := jsOr sample.sample_custom_id dashDash
    name := jsOr sample.sample_name dashDash
    matrixType := jsOr sample.matrix_type dashDash
    totalTests := sample.total_tests.getD 0
    incompleteTests := sample.incomplete_tests.getD 0
    tests :=
      match sample.tests with
      | some ts => ts.map mapTestItem
      | none => [] }

/-- The per-order arrow inside `mapOrders`, after the SLA threshold has
been resolved. -/
def mapOrderItem (threshold : JsNum) (item : RawOrder) : OverdueOrder :=
  { id := item.order_id
    reference := jsOr item.custom_formatted_id (orderLit ++ natCodes item.order_id)
    customer := jsOr item.customer_name dashDash
    state := toTitleCase item.state
    createdAt := parseMaybeDate item.date_created
    openHours := item.open_hours
    slaBreached := jsGt item.open_hours threshold
    totalSamples := item.total_samples.getD 0
    incompleteSamples :=
      item.incomplete_sample_count.getD
        (match item.incomplete_samples with
         | some l => (l.length : Int)
         | none => 0)
    samples :=
      match item.incomplete_samples with
      | some l => l.map mapSampleItem
      | none => [] }

/-- `mapOrders`: resolves the SLA threshold once (`Number.isFinite(slaHours)
? slaHours : Number.POSITIVE_INFINITY`) and maps every entry. -/
def mapOrders (entries : List RawOrder) (slaHours : JsNum) : List OverdueOrder :=
  let threshold := if slaHours.isFinite then slaHours else JsNum.posInf
  entries.map (mapOrderItem threshold)

/-- `mapWarnings` delegates to `mapOrders`. -/
def mapWarnings (entries : List RawOrder) (slaHours : JsNum) : List OverdueOrder :=
  mapOrders entries slaHours

/-- The per-record arrow inside `mapReadySamples`.  The source reads
`item.sample_custom_id`, a field absent from the declared
`ready_to_report_samples` shape; at runtime that read yields `undefined`
(falsy), modelled here as the `none` head of the `||` chain. -/
def mapReadySampleItem (item : RawReadySample) : ReadySample :=
  { id := item.sample_id
    customId := jsOr none (jsOr item.sample_name (sampleLit ++ natCodes item.sample_id))
    name := jsOr item.sample_name (sampleLit ++ natCodes item.sample_id)
    orderReference := jsOr item.order_custom_id dashDash
    customer := jsOr item.customer_name dashDash
    completedAt := parseMaybeDate item.completed_date
    testsDone := item.tests_ready_count
    testsTotal := item.tests_total_count }

/-- `mapReadySamples`. -/
def mapReadySamples (entries : List RawReadySample) : List ReadySample :=
  entries.map mapReadySampleItem

/-- `mapTimeline`. -/
def mapTimeline (entries : List RawTimelinePoint) : List TimelinePoint :=
  entries.map (fun point =>
    let date := parseISO point.period_start
    { date := date
      label := formatDateLabel date
      overdueOrders := point.overdue_orders })

/-- `customer.data[period] = value` on a JS object: an existing key is
overwritten in place (keeping its position), a new key is appended. -/
def recordSet : List (JStr × Int) → JStr → Int → List (JStr × Int)
  | [], k, v => [(k, v)]
  | (k', v') :: rest, k, v =>
    if k' = k then (k, v) :: rest else (k', v') :: recordSet rest k v

/-- The grouping key of a heatmap triple:
`item.customer_name || 'Unknown'`. -/
def heatKey (e : RawHeatmapEntry) : JStr := jsOr e.customer_name unknownLit

/-- `customersMap.get(key)!` followed by the two field mutations
`customer.data[item.period_start] = item.overdue_orders` and
`customer.total += item.overdue_orders`: rewrites the unique entry whose
name matches. -/
def updateCustomer : List HeatmapCustomer → JStr → JStr → Int → List HeatmapCustomer
  | [], _, _, _ => []
  | c :: rest, nm, p, v =>
    if c.customerName = nm then
      { customerName := c.customerName
        data := recordSet c.data p v
        total := c.total + v } :: rest
    else
      c :: updateCustomer rest nm p v

/-- One iteration of the `for (const item of entries)` loop of
`mapHeatmap` over the insertion-ordered `customersMap` (modelled as an
association list): `customersMap.has(key)` guards the insertion of a
fresh `{customerName, data: {}, total: 0}` row at the end, then the
matching row is updated. -/
def groupStep (cs : List HeatmapCustomer) (e : RawHeatmapEntry) : List HeatmapCustomer :=
  let nm := heatKey e
  let cs' :=
    if cs.any (fun c => c.customerName == nm) then cs
    else cs ++ [{ customerName := nm, data := [], total := 0 }]
  updateCustomer cs' nm e.period_start e.overdue_orders

/-- The whole grouping loop of `mapHeatmap`; the resulting row order is
the first-encounter order of the grouping keys (JS `Map` preserves
insertion order, and `Array.from(map.values())` reads it back). -/
def groupCustomers (entries : List RawHeatmapEntry) : List HeatmapCustomer :=
  entries.foldl groupStep []

/-- Stable insertion, placing `x` before the first element `y` such that
`le x y`; ties in a total preorder therefore keep input order. -/
def insOrd (le : α → α → Bool) (x : α) : List α → List α
  | [] => [x]
  | y :: ys => if le x y then x :: y :: ys else y :: insOrd le x ys

/-- Stable insertion sort.  `Array.prototype.sort` is required by the
language specification to be stable, and a stable sort under a total
preorder comparator has a unique result, so this computes exactly what
the source's `.sort(...)` calls produce. -/
def sortOrd (le : α → α → Bool) : List α → List α
  | [] => []
  | x :: xs => insOrd le x (sortOrd le xs)

/-- `Array.from(new Set(l))`: deduplication keeping first occurrences. -/
def dedupFirstAux (seen : List JStr) : List JStr → List JStr
  | [] => []
  | x :: xs =>
    if x ∈ seen then dedupFirstAux seen xs
    else x :: dedupFirstAux (x :: seen) xs

/-- `Array.from(new Set(l))` with no strings seen yet. -/
def dedupFirst (l : List JStr) : List JStr := dedupFirstAux [] l

/-- The comparator of the default `.sort()` on an array of strings:
lexicographic comparison of code-unit sequences. -/
def lexLeB (a b : JStr) : Bool := decide (a ≤ b)

/-- The comparator `(a, b) => b.total - a.total`: descending total. -/
def byTotalDescB (a b : HeatmapCustomer) : Bool := decide (b.total ≤ a.total)

/-- `mapHeatmap`. -/
def mapHeatmap (entries : List RawHeatmapEntry) : HeatmapData :=
  if entries.isEmpty then { periods := [], customers := [] }
  else
    let periods :=
      sortOrd lexLeB (dedupFirst ((entries.map (·.period_start)).filter jsTruthy))
    let customers := sortOrd byTotalDescB (groupCustomers entries)
    { periods := periods, customers := customers }

/-- `mapStateBreakdown`. -/
def mapStateBreakdown (entries : List RawStateBreakdown) : List StateBreakdownItem :=
  entries.map (fun item =>
    { state := toTitleCase item.state
      count := item.count
      ratio := item.ratio })

/-- `mapSlowReportedOrders`. -/
def mapSlowReportedOrders (response : SlowReportedOrdersResponse) : SlowReportedOrdersData :=
  { stats :=
    { totalOrders := response.stats.total_orders
      averageOpenHours := response.stats.average_open_hours
      percentile95OpenHours := response.stats.percentile_95_open_hours
      thresholdHours := response.stats.threshold_hours }
    orders := response.items.map (fun item =>
      { id := item.order_id
        reference := item.order_reference
        customer := jsOr item.customer_name dashDash
        createdAt := parseMaybeDate item.date_created
        reportedAt := parseMaybeDate item.date_reported
        samplesCount := item.samples_count.getD 0
        testsCount := item.tests_count.getD 0
        openTimeHours := item.open_time_hours.getD 0
        openTimeLabel := jsOrS item.open_time_label dashDash
        isOutlier := item.is_outlier }) }

/-! ## Fetch orchestrator (`fetchPriorityOrders`)

The two `apiFetch` calls are issued concurrently and neither outcome
depends on the other; they are therefore modelled as two independent
already-settled results handed to the `Promise.all` join. -/

/-- `Promise.all` over two settled promises: succeeds with the pair only
when both succeeded, otherwise rejects with a failed input's error. -/
def promiseAll2 (a : Except JStr α) (b : Except JStr β) : Except JStr (α × β) :=
  match a, b with
  | .ok x, .ok y => .ok (x, y)
  | .error e, _ => .error e
  | .ok _, .error e => .error e

/-- The composite literal returned by `fetchPriorityOrders` once both
responses are available. -/
def buildPriorityData (overdueResponse : OverdueOrdersResponse)
    (slowResponse : SlowReportedOrdersResponse) : PriorityOrdersData :=
  { kpis := buildKpis overdueResponse
    topOrders := mapOrders overdueResponse.top_orders overdueResponse.sla_hours
    warningOrders := mapWarnings overdueResponse.warning_orders overdueResponse.sla_hours
    readySamples := mapReadySamples overdueResponse.ready_to_report_samples
    timeline := mapTimeline overdueResponse.timeline
    heatmap := mapHeatmap overdueResponse.heatmap
    stateBreakdown := mapStateBreakdown overdueResponse.state_breakdown
    slowReported := mapSlowReportedOrders slowResponse }

/-- `fetchPriorityOrders`, as a function of the settled outcomes of its
two concurrent requests. -/
def fetchPriorityOrders (overdueResult : Except JStr OverdueOrdersResponse)
    (slowResult : Except JStr SlowReportedOrdersResponse) :
    Except JStr PriorityOrdersData :=
  match promiseAll2 overdueResult slowResult with
  | .error e => .error e
  | .ok (o, s) => .ok (buildPriorityData o s)

/-! ## View-state controller (`usePriorityOrders` in the hook source)

`refresh` performs two state writes: one synchronous write when the
cycle starts (`loading: true, error: null`, other fields kept), and one
when its `fetchPriorityOrders` promise settles.  React's `setState`
applies writes in arrival order; the hook carries no cycle identity, so
a trace of overlapping cycles is a sequence of these events. -/

/-- The hook's `PriorityState`. -/
structure PriorityState where
  data : Option PriorityOrdersData
  loading : Bool
  error : Option JStr
deriving DecidableEq, Repr

/-- `initialState` of the hook. -/
def initialState : PriorityState := { data := none, loading := false, error := none }

/-- The write issued when `refresh` begins:
`setState(prev => ({ ...prev, loading: true, error: null }))`. -/
def refreshStart (prev : PriorityState) : PriorityState :=
  { prev with loading := true, error := none }

/-- The write issued when a cycle's fetch settles: on success all three
fields are replaced with `{data: response, loading: false, error: null}`;
on failure with `{data: null, loading: false, error: message}`. -/
def refreshSettle (outcome : Except JStr PriorityOrdersData)
    (_prev : PriorityState) : PriorityState :=
  match outcome with
  | .ok response => { data := some response, loading := false, error := none }
  | .error message => { data := none, loading := false, error := some message }

/-- One observable controller event: a cycle starting, or a cycle's
fetch settling. -/
inductive HookEvent where
  | start
  | settle (outcome : Except JStr PriorityOrdersData)

/-- Apply one event to the controller state. -/
def stepState (s : PriorityState) : HookEvent → PriorityState
  | .start => refreshStart s
  | .settle outcome => refreshSettle outcome s

/-- Run a whole event trace in arrival order. -/
def runEvents (s : PriorityState) (events : List HookEvent) : PriorityState :=
  events.foldl stepState s

/-! ## Spec-side auxiliary definitions and concrete fixtures -/

/-- The summed overdue count of all triples grouped under display name
`nm` (the spec's definition of a heatmap customer's `total`). -/
def sumKey (es : List RawHeatmapEntry) (nm : JStr) : Int :=
  ((es.filter (fun e => heatKey e == nm)).map (·.overdue_orders)).sum

/-- The summed `total` of the rows named `nm` (with unique names, this
reads off the single row's total). -/
def rowTotal (cs : List HeatmapCustomer) (nm : JStr) : Int :=
  ((cs.filter (fun c => c.customerName == nm)).map (·.total)).sum

/-- A minimal concrete overdue response, for closed instances. -/
def emptyOverdueResponse : OverdueOrdersResponse :=
  { interval := []
    minimum_days_overdue := 0
    warning_window_days := 5
    sla_hours := .finite 120
    kpis := ⟨0, none, none, 0, 0, 0⟩
    top_orders := []
    warning_orders := []
    ready_to_report_samples := []
    timeline := []
    heatmap := []
    state_breakdown := [] }

/-- A minimal concrete slow-orders response, for closed instances. -/
def emptySlowResponse : SlowReportedOrdersResponse :=
  { stats := ⟨0, none, none, none⟩, items := [] }

/-- A concrete composite produced by a successful cycle. -/
def sampleComposite : PriorityOrdersData :=
  buildPriorityData emptyOverdueResponse emptySlowResponse

/-! ## Lemmas: stable insertion sort -/

theorem insOrd_perm (le : α → α → Bool) (x : α) (l : List α) :
    (insOrd le x l).Perm (x :: l) := by
  induction l with
  | nil => simp [insOrd]
  | cons y ys ih =>
    by_cases h : le x y = true
    · simp [insOrd, h]
    · simp only [insOrd, h, if_false]
      exact (ih.cons y).trans (List.Perm.swap x y ys)

theorem sortOrd_perm (le : α → α → Bool) (l : List α) :
    (sortOrd le l).Perm l := by
  induction l with
  | nil => simp [sortOrd]
  | cons x xs ih =>
    exact (insOrd_perm le x (sortOrd le xs)).trans (ih.cons x)

theorem mem_sortOrd (le : α → α → Bool) (l : List α) (a : α) :
    a ∈ sortOrd le l ↔ a ∈ l :=
  (sortOrd_perm le l).mem_iff

theorem mem_insOrd (le : α → α → Bool) (x : α) (l : List α) (a : α) :
    a ∈ insOrd le x l ↔ a = x ∨ a ∈ l := by
  rw [(insOrd_perm le x l).mem_iff, List.mem_cons]

theorem pairwise_insOrd (le : α → α → Bool)
    (htot : ∀ a b, le a b = true ∨ le b a = true)
    (htrans : ∀ a b c, le a b = true → le b c = true → le a c = true)
    (x : α) (l : List α) (hl : l.Pairwise (fun a b => le a b = true)) :
    (insOrd le x l).Pairwise (fun a b => le a b = true) := by
  induction l with
  | nil => simp [insOrd]
  | cons y ys ih =>
    rcases List.pairwise_cons.mp hl with ⟨hy, hys⟩
    by_cases h : le x y = true
    · simp only [insOrd, h, if_true]
      refine List.pairwise_cons.mpr ⟨?_, hl⟩
      intro z hz
      rcases List.mem_cons.mp hz with rfl | hz'
      · exact h
      · exact htrans x y z h (hy z hz')
    · simp only [insOrd, h, if_false]
      refine List.pairwise_cons.mpr ⟨?_, ih hys⟩
      intro z hz
      rcases (mem_insOrd le x ys z).mp hz with hzx | hz'
      · rw [hzx]
        exact (htot x y).resolve_left h
      · exact hy z hz'

theorem pairwise_sortOrd (le : α → α → Bool)
    (htot : ∀ a b, le a b = true ∨ le b a = true)
    (htrans : ∀ a b c, le a b = true → le b c = true → le a c = true)
    (l : List α) : (sortOrd le l).Pairwise (fun a b => le a b = true) := by
  induction l with
  | nil => simp [sortOrd]
  | cons x xs ih => exact pairwise_insOrd le htot htrans x (sortOrd le xs) ih

theorem filter_insOrd (le : α → α → Bool) (p : α → Bool) (x : α) (l : List α)
    (h : ∀ y, le x y = false → ¬(p x = true ∧ p y = true)) :
    (insOrd le x l).filter p = (x :: l).filter p := by
  induction l with
  | nil => simp [insOrd]
  | cons y ys ih =>
    cases hxy : le x y with
    | true => simp [insOrd, hxy]
    | false =>
      have hnot := h y hxy
      have hstep : (insOrd le x (y :: ys)).filter p = (y :: insOrd le x ys).filter p := by
        simp [insOrd, hxy]
      rw [hstep]
      cases hpy : p y with
      | false => simp [List.filter_cons, hpy, ih]
      | true =>
        have hpx : p x = false := by
          cases hv : p x with
          | false => rfl
          | true => exact absurd ⟨hv, hpy⟩ hnot
        simp [List.filter_cons, hpy, hpx, ih]

theorem filter_sortOrd (le : α → α → Bool) (p : α → Bool) (l : List α)
    (h : ∀ x y, le x y = false → ¬(p x = true ∧ p y = true)) :
    (sortOrd le l).filter p = l.filter p := by
  induction l with
  | nil => simp [sortOrd]
  | cons x xs ih =>
    calc (insOrd le x (sortOrd le xs)).filter p
        = (x :: sortOrd le xs).filter p :=
          filter_insOrd le p x (sortOrd le xs) (h x)
      _ = (x :: xs).filter p := by
          rw [List.filter_cons, List.filter_cons, ih]

theorem nodup_sortOrd (le : α → α → Bool) (l : List α) (h : l.Nodup) :
    (sortOrd le l).Nodup :=
  ((sortOrd_perm le l).nodup_iff).mpr h

/-! ## Lemmas: first-occurrence deduplication -/

theorem mem_dedupFirstAux (seen : List JStr) (l : List JStr) (a : JStr) :
    a ∈ dedupFirstAux seen l ↔ a ∈ l ∧ a ∉ seen := by
  induction l generalizing seen with
  | nil => simp [dedupFirstAux]
  | cons x xs ih =>
    simp only [dedupFirstAux]
    by_cases hx : x ∈ seen
    · rw [if_pos hx, ih]
      constructor
      · rintro ⟨h1, h2⟩
        exact ⟨List.mem_cons_of_mem x h1, h2⟩
      · rintro ⟨h1, h2⟩
        rcases List.mem_cons.mp h1 with hax | h1'
        · rw [hax] at h2
          exact absurd hx h2
        · exact ⟨h1', h2⟩
    · rw [if_neg hx]
      constructor
      · intro h
        rcases List.mem_cons.mp h with hax | h'
        · subst hax
          exact ⟨List.mem_cons_self a xs, hx⟩
        · rcases (ih (x :: seen)).mp h' with ⟨h1, h2⟩
          exact ⟨List.mem_cons_of_mem x h1,
            fun hc => h2 (List.mem_cons_of_mem x hc)⟩
      · rintro ⟨h1, h2⟩
        by_cases hax : a = x
        · rw [hax]
          exact List.mem_cons_self x (dedupFirstAux (x :: seen) xs)
        · refine List.mem_cons_of_mem x ((ih (x :: seen)).mpr ⟨?_, ?_⟩)
          · rcases List.mem_cons.mp h1 with h | h
            · exact absurd h hax
            · exact h
          · intro hc
            rcases List.mem_cons.mp hc with h | h
            · exact hax h
            · exact h2 h

theorem nodup_dedupFirstAux (seen : List JStr) (l : List JStr) :
    (dedupFirstAux seen l).Nodup := by
  induction l generalizing seen with
  | nil => simp [dedupFirstAux]
  | cons x xs ih =>
    by_cases hx : x ∈ seen
    · simpa [dedupFirstAux, if_pos hx] using ih seen
    · simp only [dedupFirstAux, if_neg hx]
      refine List.nodup_cons.mpr ⟨fun hc => ?_, ih (x :: seen)⟩
      rcases (mem_dedupFirstAux (x :: seen) xs x).mp hc with ⟨_, h2⟩
      exact h2 (List.mem_cons_self x seen)

theorem mem_dedupFirst (l : List JStr) (a : JStr) :
    a ∈ dedupFirst l ↔ a ∈ l := by
  simp [dedupFirst, mem_dedupFirstAux]

theorem nodup_dedupFirst (l : List JStr) : (dedupFirst l).Nodup :=
  nodup_dedupFirstAux [] l

/-! ## Lemmas: heatmap grouping -/

theorem mem_recordSet (d : List (JStr × Int)) (k : JStr) (v : Int) (kv : JStr × Int)
    (h : kv ∈ recordSet d k v) : kv = (k, v) ∨ kv ∈ d := by
  induction d with
  | nil =>
    simp [recordSet] at h
    exact Or.inl h
  | cons e rest ih =>
    obtain ⟨k', v'⟩ := e
    by_cases hk : k' = k
    · rw [recordSet, if_pos hk] at h
      rcases List.mem_cons.mp h with h' | h'
      · exact Or.inl h'
      · exact Or.inr (List.mem_cons_of_mem _ h')
    · rw [recordSet, if_neg hk] at h
      rcases List.mem_cons.mp h with h' | h'
      · exact Or.inr (by rw [h']; exact List.mem_cons_self _ _)
      · rcases ih h' with h'' | h''
        · exact Or.inl h''
        · exact Or.inr (List.mem_cons_of_mem _ h'')

theorem updateCustomer_keys (Q : JStr → Prop) (cs : List HeatmapCustomer)
    (nm p : JStr) (v : Int)
    (hacc : ∀ c ∈ cs, ∀ kv ∈ c.data, Q kv.1) (hp : Q p) :
    ∀ c ∈ updateCustomer cs nm p v, ∀ kv ∈ c.data, Q kv.1 := by
  induction cs with
  | nil => simp [updateCustomer]
  | cons c rest ih =>
    by_cases hc : c.customerName = nm
    · rw [updateCustomer, if_pos hc]
      intro c' hc' kv hkv
      rcases List.mem_cons.mp hc' with h | h
      · rw [h] at hkv
        rcases mem_recordSet c.data p v kv hkv with h' | h'
        · rw [h']
          exact hp
        · exact hacc c (List.mem_cons_self c rest) kv h'
      · exact hacc c' (List.mem_cons_of_mem c h) kv hkv
    · rw [updateCustomer, if_neg hc]
      intro c' hc' kv hkv
      rcases List.mem_cons.mp hc' with h | h
      · rw [h] at hkv
        exact hacc c (List.mem_cons_self c rest) kv hkv
      · exact ih (fun c'' h'' => hacc c'' (List.mem_cons_of_mem c h'')) c' h kv hkv

theorem groupStep_keys (Q : JStr → Prop) (cs : List HeatmapCustomer)
    (e : RawHeatmapEntry)
    (hacc : ∀ c ∈ cs, ∀ kv ∈ c.data, Q kv.1) (hp : Q e.period_start) :
    ∀ c ∈ groupStep cs e, ∀ kv ∈ c.data, Q kv.1 := by
  rw [groupStep]
  split
  · exact updateCustomer_keys Q cs (heatKey e) e.period_start e.overdue_orders hacc hp
  · refine updateCustomer_keys Q _ (heatKey e) e.period_start e.overdue_orders ?_ hp
    intro c hc kv hkv
    rcases List.mem_append.mp hc with h | h
    · exact hacc c h kv hkv
    · rw [List.mem_singleton.mp h] at hkv
      simp at hkv

theorem foldl_groupStep_keys (Q : JStr → Prop) (es : List RawHeatmapEntry) :
    ∀ acc, (∀ c ∈ acc, ∀ kv ∈ c.data, Q kv.1) →
      (∀ e ∈ es, Q e.period_start) →
      ∀ c ∈ List.foldl groupStep acc es, ∀ kv ∈ c.data, Q kv.1 := by
  induction es with
  | nil =>
    intro acc hacc _
    simpa using hacc
  | cons e es' ih =>
    intro acc hacc hes
    rw [List.foldl_cons]
    exact ih (groupStep acc e)
      (groupStep_keys Q acc e hacc (hes e (List.mem_cons_self e es')))
      (fun e' he' => hes e' (List.mem_cons_of_mem e he'))

theorem groupCustomers_keys (entries : List RawHeatmapEntry) :
    ∀ c ∈ groupCustomers entries, ∀ kv ∈ c.data,
      kv.1 ∈ entries.map (·.period_start) := by
  refine foldl_groupStep_keys (fun k => k ∈ entries.map (·.period_start)) entries [] ?_ ?_
  · simp
  · intro e he
    exact List.mem_map.mpr ⟨e, he, rfl⟩

theorem updateCustomer_names (cs : List HeatmapCustomer) (nm p : JStr) (v : Int) :
    (updateCustomer cs nm p v).map (·.customerName) = cs.map (·.customerName) := by
  induction cs with
  | nil => simp [updateCustomer]
  | cons c rest ih =>
    by_cases hc : c.customerName = nm
    · rw [updateCustomer, if_pos hc]
      simp
    · rw [updateCustomer, if_neg hc]
      simp [ih]

theorem any_name_eq (cs : List HeatmapCustomer) (nm : JStr) :
    cs.any (fun c => c.customerName == nm) = true ↔
      nm ∈ cs.map (·.customerName) := by
  simp only [List.any_eq_true, List.mem_map, beq_iff_eq]

theorem dedupFirstAux_congr (s₁ s₂ : List JStr) (l : List JStr)
    (h : ∀ a, a ∈ s₁ ↔ a ∈ s₂) : dedupFirstAux s₁ l = dedupFirstAux s₂ l := by
  induction l generalizing s₁ s₂ with
  | nil => simp [dedupFirstAux]
  | cons x xs ih =>
    by_cases hx : x ∈ s₁
    · rw [dedupFirstAux, if_pos hx, dedupFirstAux, if_pos ((h x).mp hx)]
      exact ih s₁ s₂ h
    · rw [dedupFirstAux, if_neg hx, dedupFirstAux, if_neg (fun hc => hx ((h x).mpr hc))]
      refine congrArg (x :: ·) (ih (x :: s₁) (x :: s₂) ?_)
      intro a
      rw [List.mem_cons, List.mem_cons, h a]

theorem foldl_groupStep_names (es : List RawHeatmapEntry) :
    ∀ acc : List HeatmapCustomer,
      (List.foldl groupStep acc es).map (·.customerName) =
        acc.map (·.customerName) ++
          dedupFirstAux (acc.map (·.customerName)) (es.map heatKey) := by
  induction es with
  | nil =>
    intro acc
    simp [dedupFirstAux]
  | cons e es' ih =>
    intro acc
    rw [List.foldl_cons, ih (groupStep acc e), List.map_cons]
    by_cases hmem : heatKey e ∈ acc.map (·.customerName)
    · have hany : acc.any (fun c => c.customerName == heatKey e) = true :=
        (any_name_eq acc (heatKey e)).mpr hmem
      have hnames : (groupStep acc e).map (·.customerName) = acc.map (·.customerName) := by
        rw [groupStep]
        simp only [hany, if_true]
        exact updateCustomer_names acc (heatKey e) e.period_start e.overdue_orders
      rw [hnames, dedupFirstAux, if_pos hmem]
    · have hany : ¬acc.any (fun c => c.customerName == heatKey e) = true :=
        fun hc => hmem ((any_name_eq acc (heatKey e)).mp hc)
      have hnames : (groupStep acc e).map (·.customerName) =
          acc.map (·.customerName) ++ [heatKey e] := by
        rw [groupStep]
        simp only [hany, if_false]
        rw [updateCustomer_names]
        simp
      rw [hnames, dedupFirstAux, if_neg hmem]
      rw [List.append_assoc, List.singleton_append]
      refine congrArg (acc.map (·.customerName) ++ ·) (congrArg (heatKey e :: ·) ?_)
      refine dedupFirstAux_congr _ _ _ ?_
      intro a
      rw [List.mem_append, List.mem_singleton, List.mem_cons, or_comm]

theorem groupCustomers_names (entries : List RawHeatmapEntry) :
    (groupCustomers entries).map (·.customerName) = dedupFirst (entries.map heatKey) := by
  rw [groupCustomers, foldl_groupStep_names entries []]
  simp [dedupFirst]

/-! ## Lemmas: the period axis -/

theorem mem_periods (entries : List RawHeatmapEntry) (a : JStr) :
    a ∈ sortOrd lexLeB (dedupFirst ((entries.map (·.period_start)).filter jsTruthy)) ↔
      a ∈ entries.map (·.period_start) ∧ a ≠ [] := by
  rw [mem_sortOrd, mem_dedupFirst, List.mem_filter]
  simp [jsTruthy, List.isEmpty_iff]

theorem periods_sorted (entries : List RawHeatmapEntry) :
    List.Pairwise (fun a b : JStr => a < b)
      (sortOrd lexLeB (dedupFirst ((entries.map (·.period_start)).filter jsTruthy))) := by
  have h1 : List.Pairwise (fun a b : JStr => lexLeB a b = true)
      (sortOrd lexLeB (dedupFirst ((entries.map (·.period_start)).filter jsTruthy))) := by
    refine pairwise_sortOrd lexLeB ?_ ?_ _
    · intro a b
      rcases le_total a b with h | h
      · exact Or.inl (decide_eq_true h)
      · exact Or.inr (decide_eq_true h)
    · intro a b c hab hbc
      exact decide_eq_true (le_trans (of_decide_eq_true hab) (of_decide_eq_true hbc))
  have h2 : List.Pairwise (fun a b : JStr => a ≠ b)
      (sortOrd lexLeB (dedupFirst ((entries.map (·.period_start)).filter jsTruthy))) :=
    nodup_sortOrd lexLeB _ (nodup_dedupFirst _)
  exact (h1.and h2).imp (fun h => lt_of_le_of_ne (of_decide_eq_true h.1) h.2)

/-! ## Lemmas: IEEE comparison model -/

theorem jsGt_posInf_right (x : JsNum) : jsGt x .posInf = false := by
  cases x <;> rfl

theorem jsLe_not_jsGt (a b : JsNum) (h : jsLe a b = true) : jsGt a b = false := by
  cases a <;> cases b <;> simp_all [jsLe, jsGt, not_lt]

/-! ## Lemmas: the split/capitalize/join pipeline -/

theorem toLowerCode_idem (c : Nat) : toLowerCode (toLowerCode c) = toLowerCode c := by
  simp only [toLowerCode]
  split_ifs <;> omega

theorem toLowerCode_toUpperCode_of_lowered (c : Nat) (h : toLowerCode c = c) :
    toLowerCode (toUpperCode c) = c := by
  simp only [toLowerCode, toUpperCode] at h ⊢
  split_ifs at h ⊢ <;> omega

theorem splitSep_ne_nil (t : JStr) : splitSep t ≠ [] := by
  induction t with
  | nil => simp [splitSep]
  | cons c cs ih =>
    cases cs with
    | nil =>
      rw [splitSep]
      split <;> simp
    | cons d cs' =>
      rw [splitSep]
      by_cases hc : isSepCode c = true
      · rw [if_pos hc]
        by_cases hd : isSepCode d = true
        · rw [if_pos hd]
          exact ih
        · rw [if_neg hd]
          simp
      · rw [if_neg hc]
        cases hsc : splitSep (d :: cs') with
        | nil => exact absurd hsc ih
        | cons w ws => simp [splitCons]

theorem splitSep_cons_of_eq (c : Nat) (cs : JStr) (hc : isSepCode c = false)
    (w : JStr) (ws : List JStr) (h : splitSep cs = w :: ws) :
    splitSep (c :: cs) = (c :: w) :: ws := by
  cases cs with
  | nil =>
    rw [splitSep, if_neg (by simp [hc])]
    rw [splitSep] at h
    injection h with h1 h2
    rw [← h1, ← h2]
  | cons d cs' =>
    rw [splitSep, if_neg (by simp [hc]), h, splitCons]

theorem splitSep_cons_sep_sep (c d : Nat) (cs' : JStr)
    (hc : isSepCode c = true) (hd : isSepCode d = true) :
    splitSep (c :: d :: cs') = splitSep (d :: cs') := by
  rw [splitSep, if_pos hc, if_pos hd]

theorem splitSep_cons_sep_nonsep (c d : Nat) (cs' : JStr)
    (hc : isSepCode c = true) (hd : isSepCode d = false) :
    splitSep (c :: d :: cs') = [] :: splitSep (d :: cs') := by
  rw [splitSep, if_pos hc, if_neg (by simp [hd])]

theorem joinSpace_cons_head (c : Nat) (w : JStr) (ws : List JStr) :
    joinSpace ((c :: w) :: ws) = c :: joinSpace (w :: ws) := by
  cases ws with
  | nil => rfl
  | cons v ws' => rfl

theorem splitSep_eq_single_empty (t : JStr) (h : splitSep t = [[]]) : t = [] := by
  cases t with
  | nil => rfl
  | cons c cs =>
    exfalso
    cases cs with
    | nil =>
      rw [splitSep] at h
      split at h <;> simp at h
    | cons d cs' =>
      by_cases hc : isSepCode c = true
      · by_cases hd : isSepCode d = true
        · rw [splitSep_cons_sep_sep c d cs' hc hd] at h
          have := splitSep_eq_single_empty (d :: cs') h
          simp at this
        · rw [splitSep_cons_sep_nonsep c d cs' hc (by simpa using hd)] at h
          injection h with h1 h2
          exact splitSep_ne_nil (d :: cs') h2
      · cases hsc : splitSep (d :: cs') with
        | nil => exact splitSep_ne_nil (d :: cs') hsc
        | cons w ws =>
          rw [splitSep_cons_of_eq c (d :: cs') (by simpa using hc) w ws hsc] at h
          injection h with h1 h2
          simp at h1

theorem mem_splitSep (t : JStr) : ∀ w ∈ splitSep t, ∀ c ∈ w, c ∈ t := by
  induction t with
  | nil =>
    intro w hw c hc
    simp [splitSep] at hw
    rw [hw] at hc
    simp at hc
  | cons a t' ih =>
    intro w hw c hc
    cases t' with
    | nil =>
      rw [splitSep] at hw
      split at hw
      · rcases List.mem_cons.mp hw with h | h
        · rw [h] at hc
          simp at hc
        · rw [List.mem_singleton.mp h] at hc
          simp at hc
      · rw [List.mem_singleton.mp hw] at hc
        rw [List.mem_singleton.mp hc]
        exact List.mem_cons_self a []
    | cons d t'' =>
      by_cases ha : isSepCode a = true
      · by_cases hd : isSepCode d = true
        · rw [splitSep_cons_sep_sep a d t'' ha hd] at hw
          exact List.mem_cons_of_mem a (ih w hw c hc)
        · rw [splitSep_cons_sep_nonsep a d t'' ha (by simpa using hd)] at hw
          rcases List.mem_cons.mp hw with h | h
          · rw [h] at hc
            simp at hc
          · exact List.mem_cons_of_mem a (ih w h c hc)
      · cases hsc : splitSep (d :: t'') with
        | nil => exact absurd hsc (splitSep_ne_nil (d :: t''))
        | cons w₀ ws₀ =>
          rw [splitSep_cons_of_eq a (d :: t'') (by simpa using ha) w₀ ws₀ hsc] at hw
          rcases List.mem_cons.mp hw with h | h
          · rw [h] at hc
            rcases List.mem_cons.mp hc with h' | h'
            · rw [h']
              exact List.mem_cons_self a (d :: t'')
            · refine List.mem_cons_of_mem a (ih w₀ ?_ c h')
              rw [hsc]
              exact List.mem_cons_self w₀ ws₀
          · refine List.mem_cons_of_mem a (ih w ?_ c hc)
            rw [hsc]
            exact List.mem_cons_of_mem w₀ h

theorem joinSpace_cons₂ (w v : JStr) (ws : List JStr) :
    joinSpace (w :: v :: ws) = w ++ 32 :: joinSpace (v :: ws) := rfl

theorem map_id_of_fixed (f : Nat → Nat) (l : List Nat) (h : ∀ c ∈ l, f c = c) :
    l.map f = l := by
  induction l with
  | nil => rfl
  | cons c cs ih =>
    rw [List.map_cons, h c (List.mem_cons_self c cs),
      ih (fun c' hc' => h c' (List.mem_cons_of_mem c hc'))]

theorem map_lower_joinSpace (vs : List JStr) :
    (joinSpace vs).map toLowerCode = joinSpace (vs.map (fun w => w.map toLowerCode)) := by
  induction vs with
  | nil => rfl
  | cons w ws ih =>
    cases ws with
    | nil => rfl
    | cons v ws' =>
      rw [joinSpace_cons₂, List.map_append, List.map_cons, ih]
      rfl

theorem simpleCased_iff (c : Nat) : simpleCased c = true ↔ (c ≠ 223 ∧ c ≠ 304) := by
  simp [simpleCased]

theorem lowerOne_simple (c : Nat) (h : simpleCased c = true) :
    lowerOne c = [toLowerCode c] := by
  rw [lowerOne, if_neg ((simpleCased_iff c).mp h).2]

theorem upperOne_simple (c : Nat) (h : simpleCased c = true) :
    upperOne c = [toUpperCode c] := by
  rw [upperOne, if_neg ((simpleCased_iff c).mp h).1]

theorem simpleCased_toLowerCode (c : Nat) (h : simpleCased c = true) :
    simpleCased (toLowerCode c) = true := by
  rw [simpleCased_iff] at h ⊢
  simp only [toLowerCode]
  split_ifs <;> omega

theorem simpleCased_toUpperCode (c : Nat) (h : simpleCased c = true) :
    simpleCased (toUpperCode c) = true := by
  rw [simpleCased_iff] at h ⊢
  simp only [toUpperCode]
  split_ifs <;> omega

theorem toLowerStr_eq_map (s : JStr) (hs : ∀ c ∈ s, simpleCased c = true) :
    toLowerStr s = s.map toLowerCode := by
  induction s with
  | nil => rfl
  | cons c cs ih =>
    rw [toLowerStr, lowerOne_simple c (hs c (List.mem_cons_self c cs)),
      List.map_cons, List.singleton_append,
      ih (fun c' hc' => hs c' (List.mem_cons_of_mem c hc'))]

theorem lowerOne_ne_nil (c : Nat) : lowerOne c ≠ [] := by
  rw [lowerOne]
  split <;> simp

theorem upperOne_ne_nil (c : Nat) : upperOne c ≠ [] := by
  rw [upperOne]
  split <;> simp

theorem toLowerStr_eq_nil (s : JStr) (h : toLowerStr s = []) : s = [] := by
  cases s with
  | nil => rfl
  | cons c cs =>
    rw [toLowerStr] at h
    exact absurd (List.append_eq_nil.mp h).1 (lowerOne_ne_nil c)

theorem map_lower_capCode (w : JStr) (hw : ∀ c ∈ w, toLowerCode c = c)
    (ht : ∀ c ∈ w, simpleCased c = true) :
    (capCode w).map toLowerCode = w := by
  cases w with
  | nil => rfl
  | cons c cs =>
    rw [capCode, upperOne_simple c (ht c (List.mem_cons_self c cs)),
      List.singleton_append, List.map_cons,
      toLowerCode_toUpperCode_of_lowered c (hw c (List.mem_cons_self c cs)),
      map_id_of_fixed toLowerCode cs (fun c' hc' => hw c' (List.mem_cons_of_mem c hc'))]

theorem lowered_splitSep (s : JStr) (hs : ∀ c ∈ s, simpleCased c = true) :
    ∀ w ∈ splitSep (toLowerStr s), ∀ c ∈ w,
      toLowerCode c = c ∧ simpleCased c = true := by
  intro w hw c hc
  rw [toLowerStr_eq_map s hs] at hw
  have hcs : c ∈ s.map toLowerCode := mem_splitSep (s.map toLowerCode) w hw c hc
  rcases List.mem_map.mp hcs with ⟨c₀, hc₀mem, hc₀⟩
  constructor
  · rw [← hc₀]
    exact toLowerCode_idem c₀
  · rw [← hc₀]
    exact simpleCased_toLowerCode c₀ (hs c₀ hc₀mem)

theorem lower_titleCore (s : JStr) (hs : ∀ c ∈ s, simpleCased c = true) :
    (titleCore s).map toLowerCode = joinSpace (splitSep (s.map toLowerCode)) := by
  rw [titleCore, map_lower_joinSpace, List.map_map, toLowerStr_eq_map s hs]
  refine congrArg joinSpace ?_
  calc (splitSep (s.map toLowerCode)).map ((fun w => w.map toLowerCode) ∘ capCode)
      = (splitSep (s.map toLowerCode)).map id := by
        refine List.map_congr_left ?_
        intro w hw
        have h := lowered_splitSep s hs w (by rw [toLowerStr_eq_map s hs]; exact hw)
        exact map_lower_capCode w (fun c hc => (h c hc).1) (fun c hc => (h c hc).2)
    _ = splitSep (s.map toLowerCode) := List.map_id _

theorem splitSep_joinSpace (t : JStr) :
    splitSep (joinSpace (splitSep t)) = splitSep t := by
  induction t with
  | nil => rfl
  | cons c cs ih =>
    cases cs with
    | nil =>
      by_cases hc : isSepCode c = true
      · rw [splitSep, if_pos hc]
        rfl
      · have hc' : isSepCode c = false := by simpa using hc
        rw [splitSep, if_neg (by simp [hc'])]
        rw [show joinSpace [[c]] = [c] from rfl]
        rw [splitSep, if_neg (by simp [hc'])]
    | cons d cs' =>
      by_cases hc : isSepCode c = true
      · by_cases hd : isSepCode d = true
        · rw [splitSep_cons_sep_sep c d cs' hc hd]
          exact ih
        · have hd' : isSepCode d = false := by simpa using hd
          cases hsc0 : splitSep cs' with
          | nil => exact absurd hsc0 (splitSep_ne_nil cs')
          | cons w0 ws0 =>
            have hdd : splitSep (d :: cs') = (d :: w0) :: ws0 :=
              splitSep_cons_of_eq d cs' hd' w0 ws0 hsc0
            rw [splitSep_cons_sep_nonsep c d cs' hc hd', hdd]
            rw [joinSpace_cons₂, List.nil_append, joinSpace_cons_head]
            rw [splitSep_cons_sep_nonsep 32 d _ (by rfl) hd']
            have hih : splitSep (d :: joinSpace (w0 :: ws0)) = (d :: w0) :: ws0 := by
              rw [hdd, joinSpace_cons_head] at ih
              exact ih
            rw [hih]
      · have hc' : isSepCode c = false := by simpa using hc
        cases hsc : splitSep (d :: cs') with
        | nil => exact absurd hsc (splitSep_ne_nil (d :: cs'))
        | cons w ws =>
          rw [splitSep_cons_of_eq c (d :: cs') hc' w ws hsc]
          rw [joinSpace_cons_head]
          rw [hsc] at ih
          rw [splitSep_cons_of_eq c (joinSpace (w :: ws)) hc' w ws ih]

theorem capCode_eq_nil (w : JStr) : capCode w = [] ↔ w = [] := by
  cases w with
  | nil => simp [capCode]
  | cons c cs =>
    simp only [capCode]
    constructor
    · intro h
      exact absurd (List.append_eq_nil.mp h).1 (upperOne_ne_nil c)
    · intro h
      exact absurd h (by simp)

theorem joinSpace_ne_nil (ws : List JStr) (h1 : ws ≠ []) (h2 : ws ≠ [[]]) :
    joinSpace ws ≠ [] := by
  cases ws with
  | nil => exact absurd rfl h1
  | cons w ws' =>
    cases ws' with
    | nil =>
      cases w with
      | nil => exact absurd rfl h2
      | cons c cs => simp [joinSpace]
    | cons v ws'' => simp [joinSpace]

theorem titleCore_ne_nil (s : JStr) (hs : s ≠ []) : titleCore s ≠ [] := by
  rw [titleCore]
  refine joinSpace_ne_nil _ ?_ ?_
  · intro hcon
    exact splitSep_ne_nil (toLowerStr s) (List.map_eq_nil_iff.mp hcon)
  · intro hcon
    have h1 : splitSep (toLowerStr s) = [[]] := by
      cases hsc : splitSep (toLowerStr s) with
      | nil => exact absurd hsc (splitSep_ne_nil _)
      | cons w ws =>
        rw [hsc] at hcon
        rcases List.cons_eq_cons.mp hcon with ⟨hw, hws⟩
        rw [(capCode_eq_nil w).mp hw, List.map_eq_nil_iff.mp hws]
    exact hs (toLowerStr_eq_nil s (splitSep_eq_single_empty _ h1))

theorem mem_joinSpace (ws : List JStr) (c : Nat) (hc : c ∈ joinSpace ws) :
    c = 32 ∨ ∃ w ∈ ws, c ∈ w := by
  induction ws with
  | nil => simp [joinSpace] at hc
  | cons w ws' ih =>
    cases ws' with
    | nil =>
      right
      exact ⟨w, List.mem_cons_self w [], by simpa [joinSpace] using hc⟩
    | cons v ws'' =>
      rw [joinSpace_cons₂] at hc
      rcases List.mem_append.mp hc with h | h
      · exact Or.inr ⟨w, List.mem_cons_self _ _, h⟩
      · rcases List.mem_cons.mp h with h32 | h'
        · exact Or.inl h32
        · rcases ih h' with h32 | ⟨w', hw', hcw'⟩
          · exact Or.inl h32
          · exact Or.inr ⟨w', List.mem_cons_of_mem w hw', hcw'⟩

theorem titleCore_tame (s : JStr) (hs : ∀ c ∈ s, simpleCased c = true) :
    ∀ c ∈ titleCore s, simpleCased c = true := by
  intro c hc
  rw [titleCore] at hc
  rcases mem_joinSpace _ c hc with h32 | ⟨wcap, hwcap, hcw⟩
  · rw [h32]
    decide
  · rcases List.mem_map.mp hwcap with ⟨w, hw, hwc⟩
    have hword := lowered_splitSep s hs w hw
    rw [← hwc] at hcw
    cases w with
    | nil => simp [capCode] at hcw
    | cons c₀ cs =>
      have hc₀ := hword c₀ (List.mem_cons_self c₀ cs)
      rw [capCode, upperOne_simple c₀ hc₀.2, List.singleton_append] at hcw
      rcases List.mem_cons.mp hcw with hh | hh
      · rw [hh]
        exact simpleCased_toUpperCode c₀ hc₀.2
      · exact (hword c (List.mem_cons_of_mem c₀ hh)).2

theorem toLowerStr_titleCore (s : JStr) (hs : ∀ c ∈ s, simpleCased c = true) :
    toLowerStr (titleCore s) = (titleCore s).map toLowerCode :=
  toLowerStr_eq_map (titleCore s) (titleCore_tame s hs)

theorem titleCore_idem (s : JStr) (hs : ∀ c ∈ s, simpleCased c = true) :
    titleCore (titleCore s) = titleCore s := by
  conv_lhs => rw [titleCore]
  rw [toLowerStr_titleCore s hs, lower_titleCore s hs, splitSep_joinSpace]
  rw [titleCore, toLowerStr_eq_map s hs]

/-! ## Lemmas: heatmap row totals -/

theorem rowTotal_nil (nm : JStr) : rowTotal [] nm = 0 := rfl

theorem rowTotal_cons (x : HeatmapCustomer) (xs : List HeatmapCustomer) (nm : JStr) :
    rowTotal (x :: xs) nm =
      (if x.customerName == nm then x.total else 0) + rowTotal xs nm := by
  cases h : x.customerName == nm <;> simp [rowTotal, List.filter_cons, h]

theorem sumKey_cons (e : RawHeatmapEntry) (es : List RawHeatmapEntry) (nm : JStr) :
    sumKey (e :: es) nm =
      (if heatKey e == nm then e.overdue_orders else 0) + sumKey es nm := by
  cases h : heatKey e == nm <;> simp [sumKey, List.filter_cons, h]

theorem rowTotal_append_single (cs : List HeatmapCustomer) (x : HeatmapCustomer) (nm : JStr) :
    rowTotal (cs ++ [x]) nm =
      rowTotal cs nm + (if x.customerName == nm then x.total else 0) := by
  cases h : x.customerName == nm <;>
    simp [rowTotal, List.filter_append, List.filter_cons, h]

theorem updateCustomer_rowTotal (cs : List HeatmapCustomer) (key p : JStr) (v : Int)
    (nm : JStr) (hmem : key ∈ cs.map (·.customerName)) :
    rowTotal (updateCustomer cs key p v) nm =
      rowTotal cs nm + (if key == nm then v else 0) := by
  induction cs with
  | nil => simp at hmem
  | cons c rest ih =>
    by_cases hc : c.customerName = key
    · rw [updateCustomer, if_pos hc]
      simp only [rowTotal_cons, hc]
      split_ifs <;> omega
    · rw [updateCustomer, if_neg hc]
      have hmem' : key ∈ rest.map (·.customerName) := by
        rcases List.mem_map.mp hmem with ⟨c', hc', hname⟩
        rcases List.mem_cons.mp hc' with h | h
        · rw [h] at hname
          exact absurd hname (fun hh => hc hh)
        · exact List.mem_map.mpr ⟨c', h, hname⟩
      simp only [rowTotal_cons]
      rw [ih hmem']
      omega

theorem groupStep_rowTotal (cs : List HeatmapCustomer) (e : RawHeatmapEntry) (nm : JStr) :
    rowTotal (groupStep cs e) nm =
      rowTotal cs nm + (if heatKey e == nm then e.overdue_orders else 0) := by
  rw [groupStep]
  by_cases hany : cs.any (fun c => c.customerName == heatKey e) = true
  · rw [if_pos hany]
    exact updateCustomer_rowTotal cs (heatKey e) e.period_start e.overdue_orders nm
      ((any_name_eq cs (heatKey e)).mp hany)
  · rw [if_neg hany,
      updateCustomer_rowTotal _ (heatKey e) e.period_start e.overdue_orders nm
        (by rw [List.map_append]; exact List.mem_append.mpr (Or.inr (by simp))),
      rowTotal_append_single]
    simp

theorem foldl_groupStep_rowTotal (es : List RawHeatmapEntry) :
    ∀ (acc : List HeatmapCustomer) (nm : JStr),
      rowTotal (List.foldl groupStep acc es) nm = rowTotal acc nm + sumKey es nm := by
  induction es with
  | nil =>
    intro acc nm
    simp [sumKey]
  | cons e es' ih =>
    intro acc nm
    rw [List.foldl_cons, ih (groupStep acc e) nm, groupStep_rowTotal, sumKey_cons]
    omega

theorem rowTotal_eq_zero_of_not_mem (cs : List HeatmapCustomer) (nm : JStr)
    (h : nm ∉ cs.map (·.customerName)) : rowTotal cs nm = 0 := by
  induction cs with
  | nil => rfl
  | cons c rest ih =>
    rw [rowTotal_cons]
    have hc : (c.customerName == nm) = false := by
      cases hv : c.customerName == nm
      · rfl
      · exact absurd (List.mem_map.mpr ⟨c, List.mem_cons_self c rest, beq_iff_eq.mp hv⟩) h
    rw [hc, if_neg (by simp), zero_add]
    refine ih (fun hc' => h ?_)
    rcases List.mem_map.mp hc' with ⟨c', h1, h2⟩
    exact List.mem_map.mpr ⟨c', List.mem_cons_of_mem c h1, h2⟩

theorem rowTotal_read_off (cs : List HeatmapCustomer)
    (hnodup : (cs.map (·.customerName)).Nodup) :
    ∀ c ∈ cs, rowTotal cs c.customerName = c.total := by
  induction cs with
  | nil => simp
  | cons c₀ rest ih =>
    intro c hc
    rw [List.map_cons, List.nodup_cons] at hnodup
    rcases List.mem_cons.mp hc with h | h
    · rw [h, rowTotal_cons]
      have hhead : (c₀.customerName == c₀.customerName) = true := by simp
      rw [hhead, if_pos rfl, rowTotal_eq_zero_of_not_mem rest c₀.customerName hnodup.1]
      omega
    · have hne : (c₀.customerName == c.customerName) = false := by
        cases hv : c₀.customerName == c.customerName
        · rfl
        · exact absurd (beq_iff_eq.mp hv ▸ List.mem_map.mpr ⟨c, h, rfl⟩) hnodup.1
      rw [rowTotal_cons, hne, if_neg (by simp), zero_add]
      exact ih hnodup.2 c h

theorem groupCustomers_total (entries : List RawHeatmapEntry) :
    ∀ c ∈ groupCustomers entries, c.total = sumKey entries c.customerName := by
  intro c hc
  have hnodup : ((groupCustomers entries).map (·.customerName)).Nodup := by
    rw [groupCustomers_names]
    exact nodup_dedupFirst _
  have h1 := rowTotal_read_off (groupCustomers entries) hnodup c hc
  have h2 := foldl_groupStep_rowTotal entries [] c.customerName
  rw [groupCustomers] at h1
  rw [h2, rowTotal_nil] at h1
  omega

/-- `mapHeatmap` on a non-empty input, with the two let-bindings resolved. -/
theorem mapHeatmap_eq (entries : List RawHeatmapEntry) (he : ¬entries.isEmpty = true) :
    mapHeatmap entries =
      { periods := sortOrd lexLeB (dedupFirst ((entries.map (·.period_start)).filter jsTruthy))
        customers := sortOrd byTotalDescB (groupCustomers entries) } := by
  rw [mapHeatmap, if_neg he]

/-! ## Claim theorems -/

/-- C8 counterexample: with full-Unicode case mapping the normalizer is
not idempotent on every string — `"ß"` (U+00DF) normalizes to `"SS"`
(`charAt(0).toUpperCase()` expands it), which normalizes again to
`"Ss"`, a different string. -/
theorem C8_counterexample :
    toTitleCase (some [223]) = [83, 83] ∧
    toTitleCase (some (toTitleCase (some [223]))) = [83, 115] ∧
    toTitleCase (some (toTitleCase (some [223]))) ≠ toTitleCase (some [223]) := by
  refine ⟨rfl, rfl, ?_⟩
  decide

/-- C8 amended: the label-normalization function is idempotent on every
string whose code units have simple, single-unit, round-tripping case
mappings (which covers every ASCII label, e.g. `"Completed"`):
normalizing the normalization of such a string returns the same string
as normalizing it once. -/
theorem C8_toTitleCase_idempotent_simple (s : JStr)
    (hs : ∀ c ∈ s, simpleCased c = true) :
    toTitleCase (some (toTitleCase (some s))) = toTitleCase (some s) := by
  by_cases hse : s.isEmpty = true
  · have hinner : toTitleCase (some s) = dashDash := by
      rw [toTitleCase, if_pos hse]
    rw [hinner]
    rfl
  · have hinner : toTitleCase (some s) = titleCore s := by
      rw [toTitleCase, if_neg hse]
    rw [hinner]
    have hne : titleCore s ≠ [] :=
      titleCore_ne_nil s (fun hc => hse (by rw [hc]; rfl))
    rw [toTitleCase, if_neg (by simpa [List.isEmpty_iff] using hne)]
    exact titleCore_idem s hs

/-- Closed instance of C8 (amended): the already-normalized label
`"Completed"` is a fixed point of the normalizer. -/
theorem C8_toTitleCase_idempotent_simple_witness :
    toTitleCase (some (toTitleCase (some [67, 111, 109, 112, 108, 101, 116, 101, 100]))) =
      toTitleCase (some [67, 111, 109, 112, 108, 101, 116, 101, 100]) ∧
    toTitleCase (some [67, 111, 109, 112, 108, 101, 116, 101, 100]) =
      [67, 111, 109, 112, 108, 101, 116, 101, 100] :=
  ⟨C8_toTitleCase_idempotent_simple [67, 111, 109, 112, 108, 101, 116, 101, 100]
      (by decide),
    rfl⟩

/-- C4: for a raw order mapped with SLA threshold `T`, `slaBreached` is
true when `T` is finite and `openHours > T`, false when `T` is finite
and `openHours ≤ T`, and false for every `openHours` when `T` is not a
finite number (the threshold resolves to positive infinity). -/
theorem C4_slaBreached_threshold (entries : List RawOrder) (T : JsNum) (i : Nat)
    (item : RawOrder) (h : entries[i]? = some item) :
    ∃ o : OverdueOrder, (mapOrders entries T)[i]? = some o ∧
      (T.isFinite = true → jsGt item.open_hours T = true → o.slaBreached = true) ∧
      (T.isFinite = true → jsLe item.open_hours T = true → o.slaBreached = false) ∧
      (T.isFinite = false → o.slaBreached = false) := by
  refine ⟨mapOrderItem (if T.isFinite then T else JsNum.posInf) item, ?_, ?_, ?_, ?_⟩
  · rw [mapOrders]
    rw [List.getElem?_map, h]
    rfl
  · intro hfin hgt
    show jsGt item.open_hours (if T.isFinite then T else JsNum.posInf) = true
    rw [if_pos hfin]
    exact hgt
  · intro hfin hle
    show jsGt item.open_hours (if T.isFinite then T else JsNum.posInf) = false
    rw [if_pos hfin]
    exact jsLe_not_jsGt item.open_hours T hle
  · intro hfin
    show jsGt item.open_hours (if T.isFinite then T else JsNum.posInf) = false
    rw [if_neg (by simp [hfin])]
    exact jsGt_posInf_right item.open_hours

/-- Closed instance of C4: the spec's concrete scenario, an order with
`open_hours = 130` against `sla_hours = 120` is flagged as breached. -/
theorem C4_slaBreached_threshold_witness :
    ∃ o : OverdueOrder,
      (mapOrders [⟨7, none, none, none, none, .finite 130, none, none, none⟩]
        (.finite 120))[0]? = some o ∧ o.slaBreached = true := by
  obtain ⟨o, h1, h2, _, _⟩ :=
    C4_slaBreached_threshold [⟨7, none, none, none, none, .finite 130, none, none, none⟩]
      (.finite 120) 0 ⟨7, none, none, none, none, .finite 130, none, none, none⟩ rfl
  exact ⟨o, h1, h2 rfl (by decide)⟩

/-- C3: `fetchPriorityOrders` joins its two independently issued
requests: it succeeds exactly when both succeed, producing the composite
built from both responses; if either request fails the whole call fails,
and every successful result is the full two-resource composite (no
partial composite exists). -/
theorem C3_fetch_join_atomic (oR : Except JStr OverdueOrdersResponse)
    (sR : Except JStr SlowReportedOrdersResponse) :
    (∀ o s, oR = .ok o → sR = .ok s →
        fetchPriorityOrders oR sR = .ok (buildPriorityData o s)) ∧
    (∀ e, oR = .error e → ∃ e', fetchPriorityOrders oR sR = .error e') ∧
    (∀ e, sR = .error e → ∃ e', fetchPriorityOrders oR sR = .error e') ∧
    (∀ d, fetchPriorityOrders oR sR = .ok d →
        ∃ o s, oR = .ok o ∧ sR = .ok s ∧ d = buildPriorityData o s) := by
  refine ⟨?_, ?_, ?_, ?_⟩
  · rintro o s rfl rfl
    rfl
  · rintro e rfl
    cases sR with
    | ok s => exact ⟨e, rfl⟩
    | error e2 => exact ⟨e, rfl⟩
  · rintro e rfl
    cases oR with
    | ok o => exact ⟨e, rfl⟩
    | error e1 => exact ⟨e1, rfl⟩
  · intro d hd
    cases oR with
    | error e1 => simp [fetchPriorityOrders, promiseAll2] at hd
    | ok o =>
      cases sR with
      | error e2 => simp [fetchPriorityOrders, promiseAll2] at hd
      | ok s =>
        refine ⟨o, s, rfl, rfl, ?_⟩
        have : Except.ok (ε := JStr) (buildPriorityData o s) = .ok d := hd
        exact (Except.ok.injEq _ _).mp this |>.symm

/-- Closed instance of C3: both requests succeeding yields the full
composite; a failing overdue request fails the whole call. -/
theorem C3_fetch_join_atomic_witness :
    fetchPriorityOrders (.ok emptyOverdueResponse) (.ok emptySlowResponse) =
      .ok (buildPriorityData emptyOverdueResponse emptySlowResponse) ∧
    ∃ e', fetchPriorityOrders (.error dashDash) (.ok emptySlowResponse) = .error e' :=
  ⟨(C3_fetch_join_atomic (.ok emptyOverdueResponse) (.ok emptySlowResponse)).1
      emptyOverdueResponse emptySlowResponse rfl rfl,
    (C3_fetch_join_atomic (.error dashDash) (.ok emptySlowResponse)).2.1 dashDash rfl⟩

/-- C9: for every record of the declared `ready_to_report_samples`
shape, the mapped `customId` follows the documented fallback chain; the
declared shape carries no custom-id field, so the chain's first link
(`item.sample_custom_id`, read as `undefined`) can never fire, and
`customId` is the display name when that is truthy, otherwise the
literal `Sample {id}`. -/
theorem C9_readySample_customId_chain (entries : List RawReadySample) (i : Nat)
    (item : RawReadySample) (h : entries[i]? = some item) :
    ∃ r : ReadySample, (mapReadySamples entries)[i]? = some r ∧
      r.customId = jsOr none
        (jsOr item.sample_name (sampleLit ++ natCodes item.sample_id)) ∧
      r.customId = jsOr item.sample_name (sampleLit ++ natCodes item.sample_id) := by
  refine ⟨mapReadySampleItem item, ?_, rfl, rfl⟩
  rw [mapReadySamples, List.getElem?_map, h]
  rfl

/-- Closed instance of C9: a record with no display name falls through
to `Sample 3`. -/
theorem C9_readySample_customId_chain_witness :
    ∃ r : ReadySample,
      (mapReadySamples [⟨3, none, none, none, none, 0, 0⟩])[0]? = some r ∧
      r.customId = jsOr none (jsOr none (sampleLit ++ natCodes 3)) ∧
      r.customId = jsOr none (sampleLit ++ natCodes 3) :=
  C9_readySample_customId_chain [⟨3, none, none, none, none, 0, 0⟩] 0
    ⟨3, none, none, none, none, 0, 0⟩ rfl

/-- C10: the mappers treat an empty-string optional field exactly like
an absent one — an empty `custom_formatted_id` yields the `Order {id}`
reference, an empty heatmap `customer_name` is grouped under the
`Unknown` bucket, and an empty state label normalizes to `--`. -/
theorem C10_empty_string_like_null :
    (∀ (entries : List RawOrder) (T : JsNum) (i : Nat) (item : RawOrder),
        entries[i]? = some item → item.custom_formatted_id = some [] →
        ∃ o : OverdueOrder, (mapOrders entries T)[i]? = some o ∧
          o.reference = orderLit ++ natCodes item.order_id) ∧
    (∀ e : RawHeatmapEntry, e.customer_name = some [] → heatKey e = unknownLit) ∧
    (∀ e : RawHeatmapEntry, e.customer_name = some [] →
        (mapHeatmap [e]).customers.map (·.customerName) = [unknownLit]) ∧
    toTitleCase (some []) = dashDash := by
  have hkey : ∀ e : RawHeatmapEntry, e.customer_name = some [] → heatKey e = unknownLit := by
    intro e he
    rw [heatKey, he]
    rfl
  refine ⟨?_, hkey, ?_, rfl⟩
  · intro entries T i item h hcid
    refine ⟨mapOrderItem (if T.isFinite then T else JsNum.posInf) item, ?_, ?_⟩
    · rw [mapOrders, List.getElem?_map, h]
      rfl
    · show jsOr item.custom_formatted_id (orderLit ++ natCodes item.order_id) = _
      rw [hcid]
      rfl
  · intro e he
    rw [mapHeatmap_eq [e] (by simp)]
    show (sortOrd byTotalDescB (groupCustomers [e])).map (·.customerName) = [unknownLit]
    rw [groupCustomers, List.foldl_cons, List.foldl_nil, groupStep]
    rw [if_neg (by simp)]
    rw [List.nil_append, updateCustomer, if_pos rfl]
    simp [sortOrd, insOrd, hkey e he]

/-- Closed instance of C10: an order with empty `custom_formatted_id`
gets reference `Order 7`, and a triple with empty customer name is
keyed `Unknown`. -/
theorem C10_empty_string_like_null_witness :
    (∃ o : OverdueOrder,
        (mapOrders [⟨7, some [], none, none, none, .finite 0, none, none, none⟩]
          (.finite 0))[0]? = some o ∧ o.reference = orderLit ++ natCodes 7) ∧
    heatKey ⟨some [], [49], 1⟩ = unknownLit :=
  ⟨C10_empty_string_like_null.1 [⟨7, some [], none, none, none, .finite 0, none, none, none⟩]
      (.finite 0) 0 ⟨7, some [], none, none, none, .finite 0, none, none, none⟩ rfl rfl,
    C10_empty_string_like_null.2.1 ⟨some [], [49], 1⟩ rfl⟩

/-- C6 counterexample: a triple whose `periodStart` is the empty string
contributes a `periodStart` value that the periods axis omits (the
source filters falsy periods), refuting "the periods field equals the
sorted, deduplicated set of all periodStart values". -/
theorem C6_counterexample :
    ([] : JStr) ∈ ([(⟨some [65], [], 1⟩ : RawHeatmapEntry)].map (·.period_start)) ∧
    (mapHeatmap [(⟨some [65], [], 1⟩ : RawHeatmapEntry)]).periods = [] := by
  constructor
  · simp
  · rfl

/-- C6 amended: the periods field is the lexicographically sorted,
deduplicated set of the non-empty `periodStart` values of the input
(empty-string periods are filtered out), and the empty input yields
`{ periods := [], customers := [] }`. -/
theorem C6_periods_sorted_dedup (entries : List RawHeatmapEntry) :
    ((mapHeatmap entries).periods.Pairwise (fun a b : JStr => a < b)) ∧
    (∀ p : JStr, p ∈ (mapHeatmap entries).periods ↔
        (p ∈ entries.map (·.period_start) ∧ p ≠ [])) ∧
    mapHeatmap [] = { periods := [], customers := [] } := by
  by_cases he : entries.isEmpty = true
  · have hnil : entries = [] := by
      cases entries
      · rfl
      · simp at he
    subst hnil
    refine ⟨?_, ?_, rfl⟩
    · rw [mapHeatmap]
      simp
    · intro p
      rw [mapHeatmap]
      simp
  · rw [mapHeatmap_eq entries he]
    exact ⟨periods_sorted entries, fun p => mem_periods entries p, rfl⟩

/-- Closed instance of C6 (amended): a concrete period key is a member
of the periods axis. -/
theorem C6_periods_sorted_dedup_witness :
    ([49] : JStr) ∈ (mapHeatmap [(⟨some [65], [49], 2⟩ : RawHeatmapEntry)]).periods :=
  ((C6_periods_sorted_dedup [⟨some [65], [49], 2⟩]).2.1 [49]).mpr ⟨by simp, by simp⟩

/-- C5 counterexample: with a single triple whose `periodStart` is the
empty string, the customer's mapping holds the key `""` while the
top-level periods sequence is empty — a period key referenced by a
customer's mapping that is not a member of the periods sequence. -/
theorem C5_counterexample :
    ∃ c ∈ (mapHeatmap [(⟨some [65], [], 1⟩ : RawHeatmapEntry)]).customers,
      (([] : JStr), (1 : Int)) ∈ c.data ∧
        ([] : JStr) ∉ (mapHeatmap [(⟨some [65], [], 1⟩ : RawHeatmapEntry)]).periods := by
  decide

/-- C5 amended: every non-empty period key appearing in any customer's
mapping is a member of the top-level periods sequence (an empty-string
`periodStart` is written into the customer mapping but filtered out of
the periods axis). -/
theorem C5_customer_keys_in_periods (entries : List RawHeatmapEntry)
    (c : HeatmapCustomer) (hc : c ∈ (mapHeatmap entries).customers)
    (k : JStr) (v : Int) (hkv : (k, v) ∈ c.data) (hk : k ≠ []) :
    k ∈ (mapHeatmap entries).periods := by
  by_cases he : entries.isEmpty = true
  · rw [mapHeatmap, if_pos he] at hc
    simp at hc
  · rw [mapHeatmap_eq entries he] at hc ⊢
    have hc' : c ∈ groupCustomers entries := (mem_sortOrd byTotalDescB _ c).mp hc
    have hkey : k ∈ entries.map (·.period_start) :=
      groupCustomers_keys entries c hc' (k, v) hkv
    exact (mem_periods entries k).mpr ⟨hkey, hk⟩

/-- Closed instance of C5 (amended): the key `"1"` of the only
customer's mapping is in the periods axis. -/
theorem C5_customer_keys_in_periods_witness :
    ([49] : JStr) ∈ (mapHeatmap [(⟨some [65], [49], 2⟩ : RawHeatmapEntry)]).periods :=
  C5_customer_keys_in_periods [⟨some [65], [49], 2⟩]
    ⟨[65], [([49], 2)], 2⟩ (by decide) [49] 2 (by decide) (by decide)

/-- C7: the customers sequence is sorted by descending total, customers
with equal totals keep the first-encounter order of their groups (the
per-total sublists coincide with the grouping pass, whose row order is
the first-occurrence order of the grouping keys), and each row's total
is the sum of the overdue counts of its group's triples. -/
theorem C7_customers_order_stable (entries : List RawHeatmapEntry) :
    ((mapHeatmap entries).customers.Pairwise (fun a b => b.total ≤ a.total)) ∧
    (∀ t : Int, (mapHeatmap entries).customers.filter (fun c => c.total == t) =
        (groupCustomers entries).filter (fun c => c.total == t)) ∧
    ((groupCustomers entries).map (·.customerName) = dedupFirst (entries.map heatKey)) ∧
    (∀ c ∈ groupCustomers entries, c.total = sumKey entries c.customerName) := by
  by_cases he : entries.isEmpty = true
  · have hnil : entries = [] := by
      cases entries
      · rfl
      · simp at he
    subst hnil
    refine ⟨?_, ?_, rfl, ?_⟩ <;> simp [mapHeatmap, groupCustomers]
  · rw [mapHeatmap_eq entries he]
    refine ⟨?_, ?_, groupCustomers_names entries, groupCustomers_total entries⟩
    · have h := pairwise_sortOrd byTotalDescB ?_ ?_ (groupCustomers entries)
      · exact h.imp (fun hab => of_decide_eq_true hab)
      · intro a b
        rcases le_total b.total a.total with hle | hle
        · exact Or.inl (decide_eq_true hle)
        · exact Or.inr (decide_eq_true hle)
      · intro a b c hab hbc
        exact decide_eq_true (le_trans (of_decide_eq_true hbc) (of_decide_eq_true hab))
    · intro t
      refine filter_sortOrd byTotalDescB (fun c => c.total == t) (groupCustomers entries) ?_
      rintro x y hxy ⟨hx, hy⟩
      have h1 : ¬(y.total ≤ x.total) := of_decide_eq_false hxy
      exact h1 (le_of_eq ((beq_iff_eq.mp hy).trans (beq_iff_eq.mp hx).symm))

/-- C1 counterexample: cycle A starts, cycle B starts, B's fetch
resolves successfully, then A's fetch resolves with a failure.  The
hook applies A's late settle write unconditionally (it tracks no cycle
identity), so A's failure — not B's success — is the final observable
state, refuting "A's result is never applied". -/
theorem C1_counterexample :
    runEvents initialState
        [.start, .start, .settle (.ok sampleComposite), .settle (.error dashDash)] =
      { data := none, loading := false, error := some dashDash } ∧
    runEvents initialState [.start, .start, .settle (.ok sampleComposite)] =
      { data := some sampleComposite, loading := false, error := none } ∧
    runEvents initialState
        [.start, .start, .settle (.ok sampleComposite), .settle (.error dashDash)] ≠
      runEvents initialState [.start, .start, .settle (.ok sampleComposite)] := by
  refine ⟨rfl, rfl, ?_⟩
  intro h
  exact Option.noConfusion (congrArg PriorityState.data h)

/-- C1 amended: the controller applies settle writes in arrival order
with no liveness check; each settle write replaces the whole state
independently of the previous state, so whichever cycle settles last
determines the final observable `{data, loading, error}` state. -/
theorem C1_last_settle_wins (s : PriorityState) (events : List HookEvent)
    (outcome : Except JStr PriorityOrdersData) :
    runEvents s (events ++ [.settle outcome]) = refreshSettle outcome initialState := by
  rw [runEvents, List.foldl_append, List.foldl_cons, List.foldl_nil]
  cases outcome <;> rfl

/-- C2 counterexample: a cycle failing after a previous success sets
`error` and clears `loading`, but also resets `data` to `null` — the
previously successful composite is not retained. -/
theorem C2_counterexample :
    (refreshSettle (.error dashDash) ⟨some sampleComposite, false, none⟩).error =
      some dashDash ∧
    (refreshSettle (.error dashDash) ⟨some sampleComposite, false, none⟩).loading = false ∧
    (refreshSettle (.error dashDash) ⟨some sampleComposite, false, none⟩).data = none ∧
    (refreshSettle (.error dashDash) ⟨some sampleComposite, false, none⟩).data ≠
      some sampleComposite :=
  ⟨rfl, rfl, rfl, fun h => Option.noConfusion h⟩

/-- C2 amended: on failure the controller sets `error` to the failure
message and `loading` to false, but clears `data` to `null` regardless
of the previous state, rather than retaining the previous composite. -/
theorem C2_failure_clears_data (prev : PriorityState) (message : JStr) :
    refreshSettle (.error message) prev =
      { data := none, loading := false, error := some message } := rfl
